import Mathlib

/-!
# Verification of the `atomics` synchronization-primitives library

A shallow embedding of the library (Backoff, SpinMutex, SpinRwLock, the
value-resident and pointer-resident SpinSeqLock, and the AtomicT family),
with theorems settling the specification claims C1 to C10.

Machine integers (`usize`) are modelled as `Nat` with explicit reduction
modulo `2 ^ 64` where overflow matters.  Concurrency is modelled either by
a small-step transition relation over explicit thread states (SpinMutex,
SpinRwLock), by an adversarial observation oracle (optimistic reads), or
by interleaving a reader with the writer drop events (pointer seqlock).
Spin loops are modelled with explicit fuel.
-/

/-- The modulus of the `usize` arithmetic of the library (64-bit platform). -/
def usizeSize : Nat := 2 ^ 64

/-! ## Backoff (src/backoff.rs) -/

namespace Backoff

/-- `DEFAULT_SPIN_LIMIT` from src/backoff.rs line 9. -/
def DEFAULT_SPIN_LIMIT : Int := 6

/-- State of a `Backoff<SPIN_LIMIT>` value: the single `step` counter. -/
structure State where
  step : Nat
deriving DecidableEq, Repr

/-- `Backoff::new`: fresh backoff with `step = 1`. -/
def new : State := { step := 1 }

/-- The observable outcome of one `snooze` call: how many
`core::hint::spin_loop()` hints were executed, whether the call yielded to
the scheduler, and the state afterwards. -/
structure SnoozeResult where
  spins : Nat
  yielded : Bool
  state : State
deriving DecidableEq, Repr

/-- `Backoff::snooze` from src/backoff.rs, parameterised by the const
generic `B = SPIN_LIMIT : isize` and by `std : Bool` (whether the `std`
feature, hence a scheduler, is available).  `1 << k` is modelled as
`2 ^ k`. -/
def snooze (B : Int) (std : Bool) (s : State) : SnoozeResult :=
  if B < 0 then
    { spins := 2 ^ (-B - 1).toNat, yielded := false, state := s }
  else
    let limit := B.toNat
    let sy : Nat × Bool :=
      if std then
        if s.step ≤ limit then (2 ^ s.step, false) else (0, true)
      else (2 ^ s.step, false)
    let step2 := if s.step ≤ limit then s.step + 1 else s.step
    { spins := sy.1, yielded := sy.2, state := { step := step2 } }

/-- Iterated snoozing (the state evolution of a retry loop). -/
def snoozeIter (B : Int) (std : Bool) : Nat → State → State
  | 0, s => s
  | k + 1, s => snoozeIter B std k (snooze B std s).state

end Backoff

/-! ## Value-resident SpinSeqLock (src/spin_seqlock.rs) -/

namespace SpinSeqLock

/-- `SpinSeqLockEx::LOCKED` (src/spin_seqlock.rs line 23). -/
def LOCKED : Nat := 0

/-- `SpinSeqLockEx::UNLOCKED_LOCK` (src/spin_seqlock.rs line 22). -/
def UNLOCKED_LOCK : Nat := 1

/-- The cell `SpinSeqLockEx<B, T>`: the inline payload and the version
word. -/
structure Cell (α : Type) where
  data : α
  version : Nat
deriving DecidableEq, Repr

/-- `SpinSeqLockEx::new` (src/spin_seqlock.rs lines 161-166). -/
def new (v : α) : Cell α := { data := v, version := UNLOCKED_LOCK }

/-- A `SpinSeqLockReadGuardEx`: records the previously observed version. -/
structure ReadGuard where
  prev : Nat
deriving DecidableEq, Repr

/-- A `SpinSeqLockWriteGuardEx`: records the version to store on drop. -/
structure WriteGuard where
  next : Nat
deriving DecidableEq, Repr

/-- One iteration of the swap loop of `read` (src/spin_seqlock.rs lines
45-56): `version.swap(LOCKED, Acquire)`; succeed iff the swapped-out
value was not `LOCKED`. -/
def tryAcquireRead (c : Cell α) : Option (ReadGuard × Cell α) :=
  let prev := c.version
  let c2 : Cell α := { c with version := LOCKED }
  if prev ≠ LOCKED then some ({ prev := prev }, c2) else none

/-- `Drop for SpinSeqLockReadGuardEx` (src/spin_seqlock.rs lines 29-34):
store the previously observed version back. -/
def readGuardDrop (g : ReadGuard) (c : Cell α) : Cell α :=
  { c with version := g.prev }

/-- One iteration of the swap loop of `write` (src/spin_seqlock.rs lines
86-101): swap the version to `LOCKED`; on success the guard carries
`next = prev + 1` (wrapping `usize` addition). -/
def tryAcquireWrite (c : Cell α) : Option (WriteGuard × Cell α) :=
  let prev := c.version
  let c2 : Cell α := { c with version := LOCKED }
  if prev ≠ LOCKED then some ({ next := (prev + 1) % usizeSize }, c2) else none

/-- `Drop for SpinSeqLockWriteGuardEx` (src/spin_seqlock.rs lines 63-68):
store the advanced version. -/
def writeGuardDrop (g : WriteGuard) (c : Cell α) : Cell α :=
  { c with version := g.next }

/-- An uncontended write-guard acquire/release cycle (no mutation of the
payload through the guard). -/
def writeCycle (c : Cell α) : Option (Cell α) :=
  (tryAcquireWrite c).map fun gc => writeGuardDrop gc.1 gc.2

/-- `K` successive uncontended write-guard acquire/release cycles. -/
def writeCycles : Nat → Cell α → Option (Cell α)
  | 0, c => some c
  | k + 1, c => (writeCycle c).bind (writeCycles k)

/-- The three observations one `optimistic_read` attempt makes
(src/spin_seqlock.rs lines 119-137), chosen adversarially by the
concurrent environment: the first version load (Acquire), the volatile
payload read, and the version reload (Relaxed) after the fence. -/
structure LoadObs (α : Type) where
  v1 : Nat
  data : α
  v2 : Nat
deriving DecidableEq, Repr

/-- `SpinSeqLockEx::optimistic_read` (src/spin_seqlock.rs lines 119-137):
the source makes exactly one attempt: if the first version load is not
`LOCKED` and the reload equals it, the volatile-read payload is
returned. -/
def optimisticRead (o : LoadObs α) : Option α :=
  if o.v1 ≠ LOCKED then
    if o.v2 = o.v1 then some o.data else none
  else none

/-- The exclusive-read-guard spin loop of `read`, with explicit fuel for
the retries, in the quiescent model (the cell does not change between
retries). -/
def readSpin : Nat → Cell α → Option (ReadGuard × Cell α)
  | 0, _ => none
  | fuel + 1, c =>
    match tryAcquireRead c with
    | some gc => some gc
    | none => readSpin fuel c

/-- `SpinSeqLockEx::load` (src/spin_seqlock.rs lines 139-141):
`optimistic_read().unwrap_or_else(|| *self.read())`.  The fallback
acquires a full exclusive read guard, copies the payload out of it and
drops the guard. -/
def load (o : LoadObs α) (fuel : Nat) (c : Cell α) : Option α :=
  match optimisticRead o with
  | some d => some d
  | none => (readSpin fuel c).map fun gc => (readGuardDrop gc.1 gc.2).data

end SpinSeqLock

/-! ## Pointer-resident SpinSeqLock (src/atomic_spin_seqlock.rs) -/

namespace PtrSeqLock

/-- `LOCKED` (src/atomic_spin_seqlock.rs line 11). -/
def LOCKED : Nat := 0

/-- `INIT_UNLOCKED` (src/atomic_spin_seqlock.rs line 10). -/
def INIT_UNLOCKED : Nat := 1

/-- The loop bound of `optimistic_read` (src/atomic_spin_seqlock.rs line
129 reuses `DEFAULT_SPIN_LIMIT = 6` as an iteration count). -/
def SPIN_ATTEMPTS : Nat := 6

/-- The cell `SpinSeqLockAtomicPtrEx<B, T>`: the `AtomicPtr` slot and the
version word.  Pointer values are modelled by an arbitrary type `P`. -/
structure PtrCell (P : Type) where
  ptr : P
  version : Nat
deriving DecidableEq, Repr

/-- `SpinSeqLockAtomicPtrEx::new` (src/atomic_spin_seqlock.rs lines
168-173). -/
def new (p : P) : PtrCell P := { ptr := p, version := INIT_UNLOCKED }

/-- `SpinSeqLockAtomicPtrReadGuardEx`: previously observed version and
the pointer snapshot. -/
structure ReadGuard (P : Type) where
  prev : Nat
  ptrSnapshot : P
deriving DecidableEq, Repr

/-- `SpinSeqLockAtomicPtrWriteGuardEx`: the version to store on drop and
the (mutable) pointer snapshot. -/
structure WriteGuard (P : Type) where
  next : Nat
  ptrSnapshot : P
deriving DecidableEq, Repr

/-- `Drop for SpinSeqLockAtomicPtrReadGuardEx` (src/atomic_spin_seqlock.rs
lines 26-31): store only the previously observed version; the pointer
slot is not written. -/
def readGuardDrop (g : ReadGuard P) (c : PtrCell P) : PtrCell P :=
  { c with version := g.prev }

/-- `Drop for SpinSeqLockAtomicPtrWriteGuardEx` (src/atomic_spin_seqlock.rs
lines 44-50): store the pointer snapshot, then store the advanced
version. -/
def writeGuardDrop (g : WriteGuard P) (c : PtrCell P) : PtrCell P :=
  { c with ptr := g.ptrSnapshot, version := g.next }

/-- One iteration of the loop body of `optimistic_read`
(src/atomic_spin_seqlock.rs lines 129-138) in the quiescent model: while
no concurrent thread intervenes, the version reload returns the same
value as the first load, so the iteration succeeds iff the version is
not `LOCKED`. -/
def optimisticAttempt (c : PtrCell P) : Option P :=
  if c.version ≠ LOCKED then some c.ptr else none

/-- The `for _ in 0..DEFAULT_SPIN_LIMIT` loop of `optimistic_read`
(src/atomic_spin_seqlock.rs lines 128-140), quiescent model. -/
def optimisticRead (c : PtrCell P) : Nat → Option P
  | 0 => none
  | n + 1 =>
    match optimisticAttempt c with
    | some p => some p
    | none => optimisticRead c n

mutual

/-- `SpinSeqLockAtomicPtrEx::try_read` (src/atomic_spin_seqlock.rs lines
78-89): swap the version to `LOCKED`; if the swapped-out value was not
`LOCKED`, build the guard, computing the pointer snapshot by calling
`self.load()` on the (now locked) cell.  `fuel` bounds the spinning of
that inner `load` fallback. -/
def tryRead (fuel : Nat) (c : PtrCell P) : Option (ReadGuard P × PtrCell P) :=
  let prev := c.version
  let c2 : PtrCell P := { c with version := LOCKED }
  if prev ≠ LOCKED then
    (loadFuel fuel c2).map fun p => ({ prev := prev, ptrSnapshot := p }, c2)
  else none
termination_by 3 * fuel + 2
decreasing_by
  all_goals simp_wf

/-- `SpinSeqLockAtomicPtrEx::load` (src/atomic_spin_seqlock.rs lines
142-144): `optimistic_read().unwrap_or_else(|| *self.read())`; the
fallback read-guard spin loop is bounded by `fuel`. -/
def loadFuel (fuel : Nat) (c : PtrCell P) : Option P :=
  match optimisticRead c SPIN_ATTEMPTS with
  | some p => some p
  | none => (readSpin fuel c).map fun gc => gc.1.ptrSnapshot
termination_by 3 * fuel + 1
decreasing_by
  all_goals simp_wf

/-- `SpinSeqLockAtomicPtrEx::read` (src/atomic_spin_seqlock.rs lines
67-76): retry `try_read` with backoff until success, here bounded by
`fuel` retries, quiescent model. -/
def readSpin : Nat → PtrCell P → Option (ReadGuard P × PtrCell P)
  | 0, _ => none
  | fuel + 1, c =>
    match tryRead fuel c with
    | some gc => some gc
    | none => readSpin fuel c
termination_by fuel _ => 3 * fuel
decreasing_by
  all_goals simp_wf <;> omega

end

/-- `SpinSeqLockAtomicPtrEx::try_write` (src/atomic_spin_seqlock.rs lines
103-115): like `try_read` but the guard carries `next = prev + 1`
(wrapping `usize` addition); the pointer snapshot is again computed by
calling `self.load()` on the locked cell. -/
def tryWrite (fuel : Nat) (c : PtrCell P) : Option (WriteGuard P × PtrCell P) :=
  let prev := c.version
  let c2 : PtrCell P := { c with version := LOCKED }
  if prev ≠ LOCKED then
    (loadFuel fuel c2).map fun p => ({ next := (prev + 1) % usizeSize, ptrSnapshot := p }, c2)
  else none

/-- A store event on the cell, as issued by the write-guard drop. -/
inductive StoreEvent (P : Type) where
  | storePtr (p : P)
  | storeVersion (v : Nat)
deriving DecidableEq, Repr

/-- Apply one store event to the cell. -/
def applyStore (c : PtrCell P) : StoreEvent P → PtrCell P
  | .storePtr p => { c with ptr := p }
  | .storeVersion v => { c with version := v }

/-- Apply a sequence of store events in order. -/
def stateAfter (c : PtrCell P) (evs : List (StoreEvent P)) : PtrCell P :=
  evs.foldl applyStore c

/-- The stores performed by `Drop for SpinSeqLockAtomicPtrWriteGuardEx`
(src/atomic_spin_seqlock.rs lines 44-50), in program order: first the
pointer store (Release), then the version store (Release). -/
def writeGuardDropEvents (g : WriteGuard P) : List (StoreEvent P) :=
  [StoreEvent.storePtr g.ptrSnapshot, StoreEvent.storeVersion g.next]

/-- The cell state after the first `t` drop events have executed
(`t = 0`: before the drop; `t = 1`: between the two stores; `t ≥ 2`:
after the drop), starting from the cell state `c` held while the guard
is live. -/
def dropStateAt (g : WriteGuard P) (c : PtrCell P) (t : Nat) : PtrCell P :=
  stateAfter c ((writeGuardDropEvents g).take t)

end PtrSeqLock

/-! ## AtomicT family (src/atomic_t.rs) -/

namespace AtomicT

/-- The native atomic integer backing an `AtomicT{8,16,32,64,Usize}<T>`:
its current bit pattern, as a natural number below `2 ^ width`. -/
structure Cell where
  data : Nat
deriving DecidableEq, Repr

/-- `store` (src/atomic_t.rs lines 75-77): transmute the argument in
(`transmute_to_u`, modelled by the encoding function `enc`) and store the
resulting bit pattern.  The ordering parameter does not affect the stored
value and is omitted. -/
def store (enc : T → Nat) (_c : Cell) (v : T) : Cell :=
  { data := enc v }

/-- `load` (src/atomic_t.rs line 73): load the bit pattern and transmute
it out (`transmute_to_t`, modelled by the decoding function `dec`). -/
def load (dec : Nat → T) (c : Cell) : T :=
  dec c.data

/-- `swap` (src/atomic_t.rs lines 82-84): store the transmuted argument,
return the transmuted previous pattern. -/
def swap (enc : T → Nat) (dec : Nat → T) (c : Cell) (v : T) : T × Cell :=
  (dec c.data, { data := enc v })

end AtomicT

/-! ## SpinMutex transition system (src/spin_mutex.rs)

The claim C5 is about arbitrary interleavings of `N` threads that
repeatedly acquire the mutex and increment a shared counter through the
guard.  Each thread is a small program counter; the increment through
the guard is modelled as a separate read and write so that a lost
update would be expressible. -/

namespace SpinMutexModel

/-- Program counter of one thread of the increment loop. -/
inductive PC where
  /-- Spinning in the compare-exchange loop of `lock`
  (src/spin_mutex.rs lines 74-86); holds no guard. -/
  | idle
  /-- The compare-exchange succeeded: the guard is live, the counter has
  not yet been read through it. -/
  | owner
  /-- The counter was read through the guard; `v` is the local copy. -/
  | writing (v : Nat)
  /-- `v + 1` was written back; the guard is about to be dropped. -/
  | releasing
deriving DecidableEq, Repr

/-- Whether the thread currently holds a live guard. -/
def PC.live : PC → Bool
  | .idle => false
  | _ => true

/-- Global state: the `AtomicBool` flag of the `SpinMutexEx`, the shared
counter it protects, the thread program counters, and a ghost count of
successful acquisitions. -/
structure MState (n : Nat) where
  locked : Bool
  counter : Nat
  pc : Fin n → PC
  acqs : Nat

/-- Interleaving semantics.  `acquire` is the successful
`compare_exchange(false, true, Acquire, Relaxed)` of `lock`
(src/spin_mutex.rs lines 77-83); a failed compare-exchange leaves the
state unchanged and is not a transition.  `release` is the guard drop
storing `false` (src/spin_mutex.rs lines 20-25).  `readCtr`/`writeCtr`
are the two halves of the increment through the guard. -/
inductive Step : MState n → MState n → Prop where
  | acquire (s : MState n) (i : Fin n) :
      s.locked = false → s.pc i = .idle →
      Step s { s with locked := true, pc := Function.update s.pc i .owner,
                      acqs := s.acqs + 1 }
  | readCtr (s : MState n) (i : Fin n) :
      s.pc i = .owner →
      Step s { s with pc := Function.update s.pc i (.writing s.counter) }
  | writeCtr (s : MState n) (i : Fin n) (v : Nat) :
      s.pc i = .writing v →
      Step s { s with counter := v + 1, pc := Function.update s.pc i .releasing }
  | release (s : MState n) (i : Fin n) :
      s.pc i = .releasing →
      Step s { s with locked := false, pc := Function.update s.pc i .idle }

/-- Initial state: unlocked, counter zero, all threads idle. -/
def init (n : Nat) : MState n :=
  { locked := false, counter := 0, pc := fun _ => .idle, acqs := 0 }

/-- Reachability from the initial state. -/
def Reachable (s : MState n) : Prop :=
  Relation.ReflTransGen Step (init n) s

/-- The inductive invariant of the mutex-protected counter. -/
def Inv (s : MState n) : Prop :=
  (∀ i j : Fin n, (s.pc i).live = true → (s.pc j).live = true → i = j) ∧
  (s.locked = false → ∀ i, s.pc i = .idle) ∧
  (∀ i, s.pc i = .owner → s.counter + 1 = s.acqs) ∧
  (∀ i v, s.pc i = .writing v → v = s.counter ∧ s.counter + 1 = s.acqs) ∧
  ((∀ i, s.pc i ≠ .owner ∧ ∀ v, s.pc i ≠ .writing v) → s.counter = s.acqs)

end SpinMutexModel

/-! ## SpinRwLock transition system (src/spin_rwlock.rs) -/

namespace RwModel

/-- `SPIN_RW_LOCK_LOCKED` (src/spin_rwlock.rs line 14). -/
def RW_LOCKED : Int := -1

/-- `SPIN_RW_LOCK_UNLOCKED` (src/spin_rwlock.rs line 15). -/
def RW_UNLOCKED : Int := 0

/-- Global state: the `AtomicIsize` reader count, plus ghost counts of
the live write guard and live read guards (a guard drop can only run
while the guard is live). -/
structure RwState where
  readers : Int
  writerHeld : Bool
  readGuards : Nat
deriving DecidableEq, Repr

/-- Interleaving semantics of the reader/writer lock.
`writeAcquire` is the successful compare-exchange of `write` from `0` to
`-1` (src/spin_rwlock.rs lines 82-99).  `readAcquire` is the successful
compare-exchange of `read` from an observed count `≠ -1` to `count + 1`
(src/spin_rwlock.rs lines 100-124); success implies the count still
equals the observed value.  `writeRelease` is the write-guard drop
storing `0` (lines 34-41); `readRelease` the read-guard drop
fetch-subtracting `1` (lines 28-33). -/
inductive RwStep : RwState → RwState → Prop where
  | writeAcquire (s : RwState) :
      s.readers = RW_UNLOCKED →
      RwStep s { s with readers := RW_LOCKED, writerHeld := true }
  | writeRelease (s : RwState) :
      s.writerHeld = true →
      RwStep s { s with readers := RW_UNLOCKED, writerHeld := false }
  | readAcquire (s : RwState) :
      s.readers ≠ RW_LOCKED →
      RwStep s { s with readers := s.readers + 1, readGuards := s.readGuards + 1 }
  | readRelease (s : RwState) :
      0 < s.readGuards →
      RwStep s { s with readers := s.readers - 1, readGuards := s.readGuards - 1 }

/-- Initial state: unlocked, no guards. -/
def rwInit : RwState := { readers := RW_UNLOCKED, writerHeld := false, readGuards := 0 }

/-- Reachability from the initial state. -/
def RwReachable (s : RwState) : Prop :=
  Relation.ReflTransGen RwStep rwInit s

/-- The inductive invariant tying the reader count to the live guards. -/
def RwInv (s : RwState) : Prop :=
  (s.writerHeld = true → s.readers = RW_LOCKED ∧ s.readGuards = 0) ∧
  (s.writerHeld = false → s.readers = (s.readGuards : Int))

end RwModel

/-! ## Helper lemmas -/

/-- One `snooze` call keeps the step within `B.toNat + 1`. -/
theorem Backoff.snooze_step_le (B : Int) (std : Bool) (s : Backoff.State)
    (h : s.step ≤ B.toNat + 1) :
    (Backoff.snooze B std s).state.step ≤ B.toNat + 1 := by
  simp only [Backoff.snooze]
  split_ifs <;> simp_all

/-- Iterated `snooze` keeps the step within `B.toNat + 1`. -/
theorem Backoff.snoozeIter_step_le (B : Int) (std : Bool) :
    ∀ (k : Nat) (s : Backoff.State), s.step ≤ B.toNat + 1 →
      (Backoff.snoozeIter B std k s).step ≤ B.toNat + 1 := by
  intro k
  induction k with
  | zero => intro s h; exact h
  | succ k ih =>
    intro s h
    exact ih _ (Backoff.snooze_step_le B std s h)

/-- `K` uncontended write cycles on a cell with a non-`LOCKED` version
advance the version by `K` (below the wraparound bound) and leave the
payload unchanged. -/
theorem SpinSeqLock.writeCycles_eq (K : Nat) :
    ∀ (c : SpinSeqLock.Cell α), c.version ≠ 0 → c.version + K < usizeSize →
      SpinSeqLock.writeCycles K c =
        some { data := c.data, version := c.version + K } := by
  induction K with
  | zero =>
    intro c h1 h2
    simp [SpinSeqLock.writeCycles]
  | succ k ih =>
    intro c h1 h2
    have hnext : (c.version + 1) % usizeSize = c.version + 1 :=
      Nat.mod_eq_of_lt (by omega)
    have hk := ih { data := c.data, version := c.version + 1 }
      (by simp) (by simp; omega)
    simp only at hk
    have hcyc : SpinSeqLock.writeCycle c =
        some { data := c.data, version := c.version + 1 } := by
      simp [SpinSeqLock.writeCycle, SpinSeqLock.tryAcquireWrite,
        SpinSeqLock.writeGuardDrop, SpinSeqLock.LOCKED, h1, hnext]
    have harith : c.version + 1 + k = c.version + (k + 1) := by omega
    rw [harith] at hk
    simp only [SpinSeqLock.writeCycles, hcyc, Option.some_bind]
    exact hk

/-! ## Claim theorems -/

/-- **C1.** For the value-resident SpinSeqLock: a cell built by `new`
has version `1`; a write guard acquired at a non-zero previous version
`v` stores `v + 1` on drop; a read guard acquired at a non-zero previous
version `v` stores back exactly `v` on drop; after `K` uncontended
write-guard acquire/release cycles (no intervening read guards) the
version equals `1 + K`, ignoring unsigned wraparound. -/
theorem c1_seqlock_version_protocol (α : Type) (v0 : α) :
    (SpinSeqLock.new v0).version = 1
    ∧ (∀ (c : SpinSeqLock.Cell α) g c2,
        SpinSeqLock.tryAcquireWrite c = some (g, c2) →
        c.version + 1 < usizeSize →
        (SpinSeqLock.writeGuardDrop g c2).version = c.version + 1)
    ∧ (∀ (c : SpinSeqLock.Cell α) g c2,
        SpinSeqLock.tryAcquireRead c = some (g, c2) →
        (SpinSeqLock.readGuardDrop g c2).version = c.version)
    ∧ (∀ K : Nat, 1 + K < usizeSize →
        SpinSeqLock.writeCycles K (SpinSeqLock.new v0) =
          some { data := v0, version := 1 + K }) := by
  refine ⟨rfl, ?_, ?_, ?_⟩
  · intro c g c2 h hlt
    by_cases hv : c.version = SpinSeqLock.LOCKED
    · simp [SpinSeqLock.tryAcquireWrite, hv] at h
    · simp only [SpinSeqLock.tryAcquireWrite, hv, ne_eq, not_false_iff,
        if_true, Option.some.injEq, Prod.mk.injEq] at h
      obtain ⟨hg, hc⟩ := h
      subst hg
      simp [SpinSeqLock.writeGuardDrop, Nat.mod_eq_of_lt hlt]
  · intro c g c2 h
    by_cases hv : c.version = SpinSeqLock.LOCKED
    · simp [SpinSeqLock.tryAcquireRead, hv] at h
    · simp only [SpinSeqLock.tryAcquireRead, hv, ne_eq, not_false_iff,
        if_true, Option.some.injEq, Prod.mk.injEq] at h
      obtain ⟨hg, hc⟩ := h
      subst hg
      simp [SpinSeqLock.readGuardDrop]
  · intro K hK
    have := SpinSeqLock.writeCycles_eq K (SpinSeqLock.new v0) (by simp [SpinSeqLock.new, SpinSeqLock.UNLOCKED_LOCK]) (by simpa [SpinSeqLock.new, SpinSeqLock.UNLOCKED_LOCK] using hK)
    simpa [SpinSeqLock.new, SpinSeqLock.UNLOCKED_LOCK] using this

/-- Witness for C1: three uncontended write cycles on a fresh cell leave
version `4`. -/
theorem c1_seqlock_version_protocol_witness :
    SpinSeqLock.writeCycles 3 (SpinSeqLock.new (0 : Nat)) =
      some { data := 0, version := 1 + 3 } :=
  (c1_seqlock_version_protocol Nat 0).2.2.2 3 (by norm_num [usizeSize])

/-- **C10.** The advanced version computed at write-guard acquisition is
the unchecked `prev + 1`: acquiring and releasing a write guard while
the version is `usize::MAX` stores version `0` — the reserved `LOCKED`
sentinel — so the code does not guarantee that the version stored on
release differs from the sentinel. -/
theorem c10_version_wraparound_to_sentinel :
    SpinSeqLock.tryAcquireWrite { data := (0 : Nat), version := usizeSize - 1 } =
      some ({ next := SpinSeqLock.LOCKED },
            { data := 0, version := SpinSeqLock.LOCKED })
    ∧ SpinSeqLock.writeCycle { data := (0 : Nat), version := usizeSize - 1 } =
      some { data := 0, version := SpinSeqLock.LOCKED }
    ∧ SpinSeqLock.LOCKED = 0 := by
  have h1 : SpinSeqLock.tryAcquireWrite { data := (0 : Nat), version := usizeSize - 1 } =
      some ({ next := SpinSeqLock.LOCKED },
            { data := 0, version := SpinSeqLock.LOCKED }) := by
    unfold SpinSeqLock.tryAcquireWrite
    norm_num [SpinSeqLock.LOCKED, usizeSize]
  refine ⟨h1, ?_, rfl⟩
  unfold SpinSeqLock.writeCycle
  rw [h1]
  rfl

/-- **C2.** The value-resident `load` makes its fixed number of
lock-free optimistic attempts (the source makes exactly one): the
attempt returns the volatile-read payload iff the first version load is
not `LOCKED` and the reload equals it; exactly when the attempt is
invalidated or observes `LOCKED`, `load` falls back to acquiring a full
exclusive read guard and copying the value out of it. -/
theorem c2_value_load_attempts (α : Type) (o : SpinSeqLock.LoadObs α)
    (fuel : Nat) (c : SpinSeqLock.Cell α) :
    (o.v1 ≠ SpinSeqLock.LOCKED → o.v2 = o.v1 →
      SpinSeqLock.load o fuel c = some o.data)
    ∧ (o.v1 = SpinSeqLock.LOCKED ∨ o.v2 ≠ o.v1 →
      SpinSeqLock.load o fuel c =
        (SpinSeqLock.readSpin fuel c).map fun gc =>
          (SpinSeqLock.readGuardDrop gc.1 gc.2).data)
    ∧ (o.v1 = SpinSeqLock.LOCKED ∨ o.v2 ≠ o.v1 → c.version ≠ SpinSeqLock.LOCKED →
      SpinSeqLock.load o (fuel + 1) c = some c.data) := by
  refine ⟨?_, ?_, ?_⟩
  · intro h1 h2
    simp [SpinSeqLock.load, SpinSeqLock.optimisticRead, h1, h2]
  · intro h
    have hnone : SpinSeqLock.optimisticRead o = none := by
      rcases h with h | h <;> simp [SpinSeqLock.optimisticRead, h]
    simp [SpinSeqLock.load, hnone]
  · intro h hv
    have hnone : SpinSeqLock.optimisticRead o = none := by
      rcases h with h | h <;> simp [SpinSeqLock.optimisticRead, h]
    simp [SpinSeqLock.load, hnone, SpinSeqLock.readSpin,
      SpinSeqLock.tryAcquireRead, hv, SpinSeqLock.readGuardDrop]

/-- Witness for C2: a validated attempt returns the observed payload;
an invalidated one copies the payload out of the exclusive read guard. -/
theorem c2_value_load_attempts_witness :
    SpinSeqLock.load { v1 := 5, data := (42 : Nat), v2 := 5 } 0
        { data := 7, version := 9 } = some 42
    ∧ SpinSeqLock.load { v1 := 5, data := (42 : Nat), v2 := 6 } 1
        { data := 7, version := 9 } = some 7 :=
  ⟨(c2_value_load_attempts Nat { v1 := 5, data := 42, v2 := 5 } 0
      { data := 7, version := 9 }).1 (by decide) rfl,
   (c2_value_load_attempts Nat { v1 := 5, data := 42, v2 := 6 } 0
      { data := 7, version := 9 }).2.2 (by simp [SpinSeqLock.LOCKED]) (by decide)⟩

/-- **C8.** For the strict AtomicT family at every width: for a value
type whose layout satisfies the precondition (the encoding image is a
`width`-bit pattern and the decode inverts the encode, which is what
size-equality plus absence of padding bytes provide), `store` followed
by `load` returns the value bit-for-bit — the transmute-in /
transmute-out pair is an exact round-trip. -/
theorem c8_atomic_t_roundtrip (width : Nat) (T : Type)
    (enc : T → Nat) (dec : Nat → T)
    (hsize : ∀ v, enc v < 2 ^ width)
    (hnopad : ∀ v, dec (enc v) = v)
    (c : AtomicT.Cell) (v : T) :
    AtomicT.load dec (AtomicT.store enc c v) = v
    ∧ (AtomicT.store enc c v).data < 2 ^ width := by
  exact ⟨hnopad v, hsize v⟩

/-- Witness for C8 at width 8 with `T = Fin 256` and the canonical
byte encoding. -/
theorem c8_atomic_t_roundtrip_witness :
    AtomicT.load (fun n => (⟨n % 256, by omega⟩ : Fin 256))
        (AtomicT.store (fun v : Fin 256 => v.val) { data := 0 } ⟨37, by omega⟩) =
      ⟨37, by omega⟩
    ∧ (AtomicT.store (fun v : Fin 256 => v.val) { data := 0 }
        (⟨37, by omega⟩ : Fin 256)).data < 2 ^ 8 :=
  c8_atomic_t_roundtrip 8 (Fin 256) (fun v => v.val)
    (fun n => ⟨n % 256, by omega⟩) (fun v => v.isLt)
    (fun v => Fin.ext (Nat.mod_eq_of_lt v.isLt)) { data := 0 } ⟨37, by omega⟩

/-- **C7.** `Backoff::new` starts with `step = 1`.  For a negative
compile-time spin limit `B`, every `snooze` performs exactly
`2 ^ (-B - 1)` spin-wait hints, never yields, and leaves the step
unchanged.  For a positive `B` with a scheduler available, `snooze`
performs `2 ^ step` hints and increments the step while `step ≤ B`;
once the step exceeds `B` it stops incrementing (the step never exceeds
`B + 1`) and yields to the scheduler on each call. -/
theorem c7_backoff_policy (B : Int) (std : Bool) (s : Backoff.State) :
    Backoff.new.step = 1
    ∧ (B < 0 → Backoff.snooze B std s =
        { spins := 2 ^ (-B - 1).toNat, yielded := false, state := s })
    ∧ (0 < B → s.step ≤ B.toNat →
        Backoff.snooze B true s =
          { spins := 2 ^ s.step, yielded := false,
            state := { step := s.step + 1 } })
    ∧ (0 < B → B.toNat < s.step →
        Backoff.snooze B true s = { spins := 0, yielded := true, state := s })
    ∧ (s.step ≤ B.toNat + 1 →
        (Backoff.snooze B std s).state.step ≤ B.toNat + 1)
    ∧ (∀ k, (Backoff.snoozeIter B std k Backoff.new).step ≤ B.toNat + 1) := by
  refine ⟨rfl, ?_, ?_, ?_, Backoff.snooze_step_le B std s, ?_⟩
  · intro hB
    simp [Backoff.snooze, hB]
  · intro hB hstep
    have hB2 : ¬(B < 0) := by omega
    simp [Backoff.snooze, hB2, hstep]
  · intro hB hstep
    have hB2 : ¬(B < 0) := by omega
    have hstep2 : ¬(s.step ≤ B.toNat) := by omega
    simp [Backoff.snooze, hB2, hstep2]
  · intro k
    exact Backoff.snoozeIter_step_le B std k Backoff.new (by simp [Backoff.new])

/-- Witness for C7 at `B = 3`: a snooze at step 2 spins `2 ^ 2` times
and advances to step 3. -/
theorem c7_backoff_policy_witness :
    Backoff.snooze 3 true { step := 2 } =
      { spins := 2 ^ 2, yielded := false, state := { step := 3 } } :=
  (c7_backoff_policy 3 true { step := 2 }).2.2.1 (by decide) (by decide)

/-- A thread whose program counter is not live is idle. -/
theorem SpinMutexModel.PC.eq_idle_of_not_live (p : SpinMutexModel.PC)
    (h : p.live = false) : p = .idle := by
  cases p <;> simp [SpinMutexModel.PC.live] at h ⊢

/-- The initial mutex state satisfies the invariant. -/
theorem SpinMutexModel.init_inv (n : Nat) :
    SpinMutexModel.Inv (SpinMutexModel.init n) := by
  refine ⟨?_, ?_, ?_, ?_, ?_⟩ <;>
    simp [SpinMutexModel.init, SpinMutexModel.Inv, SpinMutexModel.PC.live]

/-- Every step of the mutex transition system preserves the invariant. -/
theorem SpinMutexModel.step_inv {n : Nat} {s s2 : SpinMutexModel.MState n}
    (hs : SpinMutexModel.Inv s) (h : SpinMutexModel.Step s s2) :
    SpinMutexModel.Inv s2 := by
  obtain ⟨hmx, hunlocked, howner, hwriting, hdone⟩ := hs
  cases h with
  | acquire i hl hpc =>
    have hidle : ∀ j, s.pc j = .idle := hunlocked hl
    have hcnt : s.counter = s.acqs := hdone (fun j => by simp [hidle j])
    refine ⟨?_, ?_, ?_, ?_, ?_⟩
    · intro a b ha hb
      simp only [Function.update_apply] at ha hb
      by_cases hai : a = i
      · by_cases hbi : b = i
        · rw [hai, hbi]
        · rw [if_neg hbi, hidle b] at hb
          simp [SpinMutexModel.PC.live] at hb
      · rw [if_neg hai, hidle a] at ha
        simp [SpinMutexModel.PC.live] at ha
    · intro hfalse
      simp at hfalse
    · intro j hj
      simp only
      omega
    · intro j v hj
      simp only [Function.update_apply] at hj
      by_cases hji : j = i
      · rw [if_pos hji] at hj
        exact absurd hj (by simp)
      · rw [if_neg hji, hidle j] at hj
        exact absurd hj (by simp)
    · intro hnp
      exfalso
      have := (hnp i).1
      simp [Function.update_apply] at this
  | readCtr i hpc =>
    have hlive : (s.pc i).live = true := by simp [hpc, SpinMutexModel.PC.live]
    refine ⟨?_, ?_, ?_, ?_, ?_⟩
    · intro a b ha hb
      simp only [Function.update_apply] at ha hb
      by_cases hai : a = i
      · by_cases hbi : b = i
        · rw [hai, hbi]
        · rw [if_neg hbi] at hb
          exact absurd (hmx b i hb hlive) hbi
      · rw [if_neg hai] at ha
        exact absurd (hmx a i ha hlive) hai
    · intro hlf
      have := hunlocked hlf i
      rw [hpc] at this
      exact absurd this (by simp)
    · intro j hj
      simp only [Function.update_apply] at hj
      by_cases hji : j = i
      · rw [if_pos hji] at hj
        exact absurd hj (by simp)
      · rw [if_neg hji] at hj
        have : (s.pc j).live = true := by simp [hj, SpinMutexModel.PC.live]
        exact absurd (hmx j i this hlive) hji
    · intro j v hj
      simp only [Function.update_apply] at hj
      by_cases hji : j = i
      · rw [if_pos hji] at hj
        simp only [SpinMutexModel.PC.writing.injEq] at hj
        subst hj
        exact ⟨rfl, howner i hpc⟩
      · rw [if_neg hji] at hj
        have : (s.pc j).live = true := by simp [hj, SpinMutexModel.PC.live]
        exact absurd (hmx j i this hlive) hji
    · intro hnp
      exfalso
      have := (hnp i).2 s.counter
      simp [Function.update_apply] at this
  | writeCtr i v hpc =>
    have hlive : (s.pc i).live = true := by simp [hpc, SpinMutexModel.PC.live]
    obtain ⟨hv, hacq⟩ := hwriting i v hpc
    refine ⟨?_, ?_, ?_, ?_, ?_⟩
    · intro a b ha hb
      simp only [Function.update_apply] at ha hb
      by_cases hai : a = i
      · by_cases hbi : b = i
        · rw [hai, hbi]
        · rw [if_neg hbi] at hb
          exact absurd (hmx b i hb hlive) hbi
      · rw [if_neg hai] at ha
        exact absurd (hmx a i ha hlive) hai
    · intro hlf
      have := hunlocked hlf i
      rw [hpc] at this
      exact absurd this (by simp)
    · intro j hj
      simp only [Function.update_apply] at hj
      by_cases hji : j = i
      · rw [if_pos hji] at hj
        exact absurd hj (by simp)
      · rw [if_neg hji] at hj
        have : (s.pc j).live = true := by simp [hj, SpinMutexModel.PC.live]
        exact absurd (hmx j i this hlive) hji
    · intro j w hj
      simp only [Function.update_apply] at hj
      by_cases hji : j = i
      · rw [if_pos hji] at hj
        exact absurd hj (by simp)
      · rw [if_neg hji] at hj
        have : (s.pc j).live = true := by simp [hj, SpinMutexModel.PC.live]
        exact absurd (hmx j i this hlive) hji
    · intro hnp
      simp only
      omega
  | release i hpc =>
    have hlive : (s.pc i).live = true := by simp [hpc, SpinMutexModel.PC.live]
    have hothers : ∀ j, j ≠ i → s.pc j = .idle := by
      intro j hji
      by_cases hl : (s.pc j).live = true
      · exact absurd (hmx j i hl hlive) hji
      · exact SpinMutexModel.PC.eq_idle_of_not_live _ (by
          cases hlj : (s.pc j).live
          · rfl
          · exact absurd hlj hl)
    have hcnt : s.counter = s.acqs := by
      refine hdone (fun j => ?_)
      by_cases hji : j = i
      · subst hji
        rw [hpc]
        exact ⟨by simp, by simp⟩
      · rw [hothers j hji]
        exact ⟨by simp, by simp⟩
    refine ⟨?_, ?_, ?_, ?_, ?_⟩
    · intro a b ha hb
      simp only [Function.update_apply] at ha hb
      by_cases hai : a = i
      · rw [if_pos hai] at ha
        simp [SpinMutexModel.PC.live] at ha
      · rw [if_neg hai, hothers a hai] at ha
        simp [SpinMutexModel.PC.live] at ha
    · intro _ j
      simp only [Function.update_apply]
      by_cases hji : j = i
      · rw [if_pos hji]
      · rw [if_neg hji]
        exact hothers j hji
    · intro j hj
      simp only [Function.update_apply] at hj
      by_cases hji : j = i
      · rw [if_pos hji] at hj
        exact absurd hj (by simp)
      · rw [if_neg hji, hothers j hji] at hj
        exact absurd hj (by simp)
    · intro j w hj
      simp only [Function.update_apply] at hj
      by_cases hji : j = i
      · rw [if_pos hji] at hj
        exact absurd hj (by simp)
      · rw [if_neg hji, hothers j hji] at hj
        exact absurd hj (by simp)
    · intro _
      simp only
      omega

/-- Every reachable mutex state satisfies the invariant. -/
theorem SpinMutexModel.reachable_inv {n : Nat} {s : SpinMutexModel.MState n}
    (h : SpinMutexModel.Reachable s) : SpinMutexModel.Inv s := by
  induction h with
  | refl => exact SpinMutexModel.init_inv n
  | tail _ hstep ih => exact SpinMutexModel.step_inv ih hstep

/-- **C5.** Under arbitrary interleavings of `N` threads that repeatedly
acquire the SpinMutex and increment the shared counter through the
guard, at most one live guard exists at any instant — `lock` succeeds
only by the false-to-true compare-exchange and guard drop stores `false`
— and in every reachable quiescent state (all threads idle) the counter
equals the total number of successful acquisitions: no lost updates. -/
theorem c5_mutex_mutual_exclusion (n : Nat) (s : SpinMutexModel.MState n)
    (h : SpinMutexModel.Reachable s) :
    (∀ i j : Fin n, (s.pc i).live = true → (s.pc j).live = true → i = j)
    ∧ ((∀ i, s.pc i = .idle) → s.counter = s.acqs) := by
  obtain ⟨hmx, _, _, _, hdone⟩ := SpinMutexModel.reachable_inv h
  exact ⟨hmx, fun hall => hdone (fun i => by simp [hall i])⟩

/-- Witness for C5: the initial two-thread state is reachable and its
counter equals its acquisition count. -/
theorem c5_mutex_mutual_exclusion_witness :
    (SpinMutexModel.init 2).counter = (SpinMutexModel.init 2).acqs :=
  (c5_mutex_mutual_exclusion 2 (SpinMutexModel.init 2)
    Relation.ReflTransGen.refl).2 (fun _ => rfl)

/-- The initial reader/writer lock state satisfies the invariant. -/
theorem RwModel.rwInit_inv : RwModel.RwInv RwModel.rwInit := by
  constructor <;> intro h <;> simp_all [RwModel.rwInit, RwModel.RW_UNLOCKED]

/-- Every step of the reader/writer lock preserves the invariant. -/
theorem RwModel.rwStep_inv {s s2 : RwModel.RwState}
    (hs : RwModel.RwInv s) (h : RwModel.RwStep s s2) : RwModel.RwInv s2 := by
  obtain ⟨hw, hnw⟩ := hs
  cases h with
  | writeAcquire h0 =>
    have hguards : s.readGuards = 0 := by
      by_cases hwh : s.writerHeld
      · have := (hw hwh).1
        rw [RwModel.RW_UNLOCKED] at h0
        rw [RwModel.RW_LOCKED] at this
        omega
      · have := hnw (by simpa using hwh)
        rw [RwModel.RW_UNLOCKED] at h0
        omega
    exact ⟨fun _ => ⟨rfl, hguards⟩, fun hc => by simp at hc⟩
  | writeRelease hwh =>
    have hguards : s.readGuards = 0 := (hw hwh).2
    refine ⟨fun hc => by simp at hc, fun _ => ?_⟩
    simp [RwModel.RW_UNLOCKED, hguards]
  | readAcquire hne =>
    have hwh : s.writerHeld = false := by
      by_cases hwh : s.writerHeld
      · exact absurd (hw hwh).1 hne
      · simpa using hwh
    have hcount := hnw hwh
    refine ⟨fun hc => ?_, fun _ => ?_⟩
    · simp only at hc
      rw [hwh] at hc
      exact absurd hc (by simp)
    · simp only
      push_cast
      omega
  | readRelease hpos =>
    have hwh : s.writerHeld = false := by
      by_cases hwh : s.writerHeld
      · have := (hw hwh).2
        omega
      · simpa using hwh
    have hcount := hnw hwh
    refine ⟨fun hc => ?_, fun _ => ?_⟩
    · simp only at hc
      rw [hwh] at hc
      exact absurd hc (by simp)
    · simp only
      omega

/-- Every reachable reader/writer lock state satisfies the invariant. -/
theorem RwModel.rwReachable_inv {s : RwModel.RwState}
    (h : RwModel.RwReachable s) : RwModel.RwInv s := by
  induction h with
  | refl => exact RwModel.rwInit_inv
  | tail _ hstep ih => exact RwModel.rwStep_inv ih hstep

/-- **C6.** Under the SpinRwLock step relation (write: compare-exchange
`0 → -1`; read: compare-exchange `count → count + 1` from an observed
count `≠ -1`; write-guard drop: store `0`; read-guard drop:
fetch-subtract `1`), the reader count of every reachable state is never
negative except the dedicated `-1` write-locked sentinel; no step
completes a read acquisition while the sentinel is set, and no step
completes a write acquisition while the count is nonzero. -/
theorem c6_rwlock_sentinel_invariant (s : RwModel.RwState)
    (h : RwModel.RwReachable s) :
    (s.readers = RwModel.RW_LOCKED ∨ 0 ≤ s.readers)
    ∧ (∀ s2, RwModel.RwStep s s2 →
        (s.readGuards < s2.readGuards → s.readers ≠ RwModel.RW_LOCKED)
        ∧ (s.writerHeld = false → s2.writerHeld = true →
            s.readers = RwModel.RW_UNLOCKED)) := by
  obtain ⟨hw, hnw⟩ := RwModel.rwReachable_inv h
  constructor
  · by_cases hwh : s.writerHeld
    · exact Or.inl (hw hwh).1
    · right
      rw [hnw (by simpa using hwh)]
      positivity
  · intro s2 hstep
    cases hstep with
    | writeAcquire h0 =>
      exact ⟨fun hlt => by exfalso; simp only at hlt; omega, fun _ _ => h0⟩
    | writeRelease hwh =>
      refine ⟨fun hlt => by exfalso; simp only at hlt; omega, fun _ hc => ?_⟩
      simp at hc
    | readAcquire hne =>
      refine ⟨fun _ => hne, fun hf ht => ?_⟩
      simp only at ht
      rw [hf] at ht
      exact absurd ht (by simp)
    | readRelease hpos =>
      refine ⟨fun hlt => by exfalso; simp only at hlt; omega, fun hf ht => ?_⟩
      simp only at ht
      rw [hf] at ht
      exact absurd ht (by simp)

/-- Witness for C6: the reachable initial state has a non-negative
reader count. -/
theorem c6_rwlock_sentinel_invariant_witness :
    RwModel.rwInit.readers = RwModel.RW_LOCKED ∨ 0 ≤ RwModel.rwInit.readers :=
  (c6_rwlock_sentinel_invariant RwModel.rwInit Relation.ReflTransGen.refl).1

/-- The optimistic loop of the pointer-resident `load` never validates
while the version is held at `LOCKED`. -/
theorem PtrSeqLock.optimisticRead_locked {P : Type} (c : PtrSeqLock.PtrCell P)
    (h : c.version = PtrSeqLock.LOCKED) :
    ∀ n, PtrSeqLock.optimisticRead c n = none := by
  intro n
  induction n with
  | zero => rfl
  | succ n ih =>
    simp [PtrSeqLock.optimisticRead, PtrSeqLock.optimisticAttempt, h, ih]

/-- A `try_read` attempt on a cell whose version is `LOCKED` fails. -/
theorem PtrSeqLock.tryRead_locked {P : Type} (fuel : Nat)
    (c : PtrSeqLock.PtrCell P) (h : c.version = PtrSeqLock.LOCKED) :
    PtrSeqLock.tryRead fuel c = none := by
  unfold PtrSeqLock.tryRead
  simp [h]

/-- The exclusive-read retry loop of the pointer-resident `read` never
acquires the lock while the version stays `LOCKED`, for any fuel. -/
theorem PtrSeqLock.readSpin_locked {P : Type} :
    ∀ (fuel : Nat) (c : PtrSeqLock.PtrCell P), c.version = PtrSeqLock.LOCKED →
      PtrSeqLock.readSpin fuel c = none := by
  intro fuel
  induction fuel with
  | zero =>
    intro c h
    unfold PtrSeqLock.readSpin
    rfl
  | succ n ih =>
    intro c h
    unfold PtrSeqLock.readSpin
    simp [PtrSeqLock.tryRead_locked n c h, ih c h]

/-- The pointer-resident `load` never returns while the version stays
`LOCKED`, for any fuel: the optimistic attempts all observe `LOCKED` and
the read-guard fallback spins without acquiring. -/
theorem PtrSeqLock.loadFuel_locked {P : Type} (fuel : Nat)
    (c : PtrSeqLock.PtrCell P) (h : c.version = PtrSeqLock.LOCKED) :
    PtrSeqLock.loadFuel fuel c = none := by
  unfold PtrSeqLock.loadFuel
  simp [PtrSeqLock.optimisticRead_locked c h, PtrSeqLock.readSpin_locked fuel c h]

/-- `try_read` never returns a guard: on a locked cell the swap fails,
and on an unlocked cell the pointer snapshot is computed by calling the
cell's own `load` after the version has been swapped to `LOCKED`, which
never returns. -/
theorem PtrSeqLock.tryRead_eq_none {P : Type} (fuel : Nat)
    (c : PtrSeqLock.PtrCell P) : PtrSeqLock.tryRead fuel c = none := by
  unfold PtrSeqLock.tryRead
  by_cases h : c.version = PtrSeqLock.LOCKED
  · simp [h]
  · simp [h, PtrSeqLock.loadFuel_locked fuel { ptr := c.ptr, version := PtrSeqLock.LOCKED } rfl]

/-- `try_write` never returns a guard, for the same reason. -/
theorem PtrSeqLock.tryWrite_eq_none {P : Type} (fuel : Nat)
    (c : PtrSeqLock.PtrCell P) : PtrSeqLock.tryWrite fuel c = none := by
  unfold PtrSeqLock.tryWrite
  by_cases h : c.version = PtrSeqLock.LOCKED
  · simp [h]
  · simp [h, PtrSeqLock.loadFuel_locked fuel { ptr := c.ptr, version := PtrSeqLock.LOCKED } rfl]

/-- **C4 (code bug).** The spec says `try_read`/`try_write` perform one
version-swap-to-`LOCKED` attempt, never spin, and return a guard exactly
when the swapped-out version was not `LOCKED`.  In the source, the
successful branch builds the guard with `ptr_snapshoot: self.load()`
after the swap has already stored `LOCKED`: that inner `load` can never
validate optimistically and its fallback `read()` spins on the lock held
by this very call.  Modelled with any spin fuel, `try_read`/`try_write`
on a fresh cell (whose swapped-out version `1` is not `LOCKED`) never
produce a guard. -/
theorem c4_try_primitives_self_deadlock :
    (PtrSeqLock.new (0 : Nat)).version = 1
    ∧ PtrSeqLock.LOCKED = 0
    ∧ (∀ fuel, PtrSeqLock.tryRead fuel (PtrSeqLock.new (0 : Nat)) = none)
    ∧ (∀ fuel, PtrSeqLock.tryWrite fuel (PtrSeqLock.new (0 : Nat)) = none) :=
  ⟨rfl, rfl,
   fun fuel => PtrSeqLock.tryRead_eq_none fuel (PtrSeqLock.new 0),
   fun fuel => PtrSeqLock.tryWrite_eq_none fuel (PtrSeqLock.new 0)⟩

/-- **C9 (code bug).** The drop half of the claim holds: the
pointer-resident read guard stores back only the previously observed
version and leaves the pointer slot untouched.  The acquisition half
fails: the pointer snapshot of `try_read` is computed by calling the
cell's own `load` on the version slot this call just swapped to
`LOCKED`, and that computation never returns a value (for any spin
fuel), so no read-guard acquire/release cycle ever completes. -/
theorem c9_read_guard_pointer_frame :
    (∀ (g : PtrSeqLock.ReadGuard Nat) (c : PtrSeqLock.PtrCell Nat),
        (PtrSeqLock.readGuardDrop g c).ptr = c.ptr
        ∧ (PtrSeqLock.readGuardDrop g c).version = g.prev)
    ∧ (∀ fuel, PtrSeqLock.loadFuel fuel
        { ptr := (0 : Nat), version := PtrSeqLock.LOCKED } = none) :=
  ⟨fun _ _ => ⟨rfl, rfl⟩,
   fun fuel => PtrSeqLock.loadFuel_locked fuel _ rfl⟩

/-- The drop timeline before any store has run. -/
theorem PtrSeqLock.dropStateAt_zero {P : Type} (g : PtrSeqLock.WriteGuard P)
    (c : PtrSeqLock.PtrCell P) : PtrSeqLock.dropStateAt g c 0 = c := rfl

/-- The drop timeline between the pointer store and the version store. -/
theorem PtrSeqLock.dropStateAt_one {P : Type} (g : PtrSeqLock.WriteGuard P)
    (c : PtrSeqLock.PtrCell P) :
    PtrSeqLock.dropStateAt g c 1 = { c with ptr := g.ptrSnapshot } := rfl

/-- The drop timeline after both stores have run. -/
theorem PtrSeqLock.dropStateAt_ge2 {P : Type} (g : PtrSeqLock.WriteGuard P)
    (c : PtrSeqLock.PtrCell P) (t : Nat) (h : 2 ≤ t) :
    PtrSeqLock.dropStateAt g c t =
      { c with ptr := g.ptrSnapshot, version := g.next } := by
  obtain ⟨u, rfl⟩ : ∃ u, t = u + 2 := ⟨t - 2, by omega⟩
  simp [PtrSeqLock.dropStateAt, PtrSeqLock.writeGuardDropEvents,
    PtrSeqLock.stateAfter, PtrSeqLock.applyStore, List.take_succ_cons]

/-- **C3.** Dropping a pointer-resident write guard performs exactly two
stores, in program order the pointer store first and the version store
second.  Interleaving an optimistic reader (version read at `t1`,
pointer read at `t2`, version re-read at `t3`, `t1 ≤ t2 ≤ t3`) with the
drop of a guard held on the cell: whenever the reader validates (first
version not `LOCKED` and re-read equal to it), the version it saw is the
advanced one and the pointer it read is the updated snapshot — never the
advanced version together with the pre-update pointer. -/
theorem c3_ptr_write_drop_order (g : PtrSeqLock.WriteGuard Nat)
    (c : PtrSeqLock.PtrCell Nat) (t1 t2 t3 : Nat)
    (hheld : c.version = PtrSeqLock.LOCKED)
    (h12 : t1 ≤ t2) (h23 : t2 ≤ t3)
    (hnl : (PtrSeqLock.dropStateAt g c t1).version ≠ PtrSeqLock.LOCKED)
    (hval : (PtrSeqLock.dropStateAt g c t3).version =
            (PtrSeqLock.dropStateAt g c t1).version) :
    PtrSeqLock.writeGuardDropEvents g =
      [PtrSeqLock.StoreEvent.storePtr g.ptrSnapshot,
       PtrSeqLock.StoreEvent.storeVersion g.next]
    ∧ (PtrSeqLock.dropStateAt g c t2).ptr = g.ptrSnapshot
    ∧ (PtrSeqLock.dropStateAt g c t3).ptr = g.ptrSnapshot
    ∧ (PtrSeqLock.dropStateAt g c t1).version = g.next
    ∧ (PtrSeqLock.dropStateAt g c t3).version = g.next := by
  have ht1 : 2 ≤ t1 := by
    by_contra hlt
    push_neg at hlt
    interval_cases t1
    · rw [PtrSeqLock.dropStateAt_zero] at hnl
      exact hnl hheld
    · rw [PtrSeqLock.dropStateAt_one] at hnl
      exact hnl hheld
  have hv1 : (PtrSeqLock.dropStateAt g c t1).version = g.next := by
    rw [PtrSeqLock.dropStateAt_ge2 g c t1 ht1]
  refine ⟨rfl, ?_, ?_, hv1, hval.trans hv1⟩
  · rw [PtrSeqLock.dropStateAt_ge2 g c t2 (le_trans ht1 h12)]
  · rw [PtrSeqLock.dropStateAt_ge2 g c t3 (le_trans (le_trans ht1 h12) h23)]

/-- Witness for C3: the reader whose three reads all land after the
drop validates and observes the new pointer with the new version. -/
theorem c3_ptr_write_drop_order_witness :
    PtrSeqLock.writeGuardDropEvents
        ({ next := 5, ptrSnapshot := 1 } : PtrSeqLock.WriteGuard Nat) =
      [PtrSeqLock.StoreEvent.storePtr 1, PtrSeqLock.StoreEvent.storeVersion 5]
    ∧ (PtrSeqLock.dropStateAt { next := 5, ptrSnapshot := 1 }
        { ptr := (0 : Nat), version := 0 } 2).ptr = 1
    ∧ (PtrSeqLock.dropStateAt { next := 5, ptrSnapshot := 1 }
        { ptr := (0 : Nat), version := 0 } 2).ptr = 1
    ∧ (PtrSeqLock.dropStateAt { next := 5, ptrSnapshot := 1 }
        { ptr := (0 : Nat), version := 0 } 2).version = 5
    ∧ (PtrSeqLock.dropStateAt { next := 5, ptrSnapshot := 1 }
        { ptr := (0 : Nat), version := 0 } 2).version = 5 :=
  c3_ptr_write_drop_order { next := 5, ptrSnapshot := 1 }
    { ptr := 0, version := 0 } 2 2 2 rfl (le_refl 2) (le_refl 2)
    (by decide) rfl
